import Mathlib

/-!
Verification of the sparse-matrix core of `src/main.py`.

The Python class `SparseMatrix` stores `num_rows`, `num_cols` and a dict
`elements` mapping `(row, col)` pairs to integer values.  We embed the dict
as a Mathlib `AList` keyed by `Int × Int` (a list of key-value pairs with
no duplicate keys): Python dict assignment is `AList.insert`, `del` is
`AList.erase`, `dict.get(k, 0)` is `(lookup k).getD 0`.  Python `dict`
iteration order is insertion order; every loop below folds over the entry
list, and all results are shown to be independent of that order (they are
characterised purely through `lookup`).
-/

/-- The element dictionary of a sparse matrix: a finite association map
from `(row, col)` to an integer value, mirroring the Python dict. -/
def EMap := AList (fun _ : Int × Int => Int)

instance : EmptyCollection EMap := ⟨(∅ : AList (fun _ : Int × Int => Int))⟩

/-- Dictionary lookup, `elements.get((row, col))` returning `Option`. -/
def EMap.lookup (d : EMap) (k : Int × Int) : Option Int :=
  AList.lookup k (d : AList (fun _ : Int × Int => Int))

/-- Dictionary assignment `elements[k] = v`. -/
def EMap.insert (d : EMap) (k : Int × Int) (v : Int) : EMap :=
  AList.insert k v (d : AList (fun _ : Int × Int => Int))

/-- Dictionary deletion `del elements[k]` (no-op when the key is absent,
matching the guarded `del` in `set_element`). -/
def EMap.erase (d : EMap) (k : Int × Int) : EMap :=
  AList.erase k (d : AList (fun _ : Int × Int => Int))

/-- The entry list underlying the dictionary. -/
def EMap.entries (d : EMap) : List (Sigma (fun _ : Int × Int => Int)) :=
  AList.entries (d : AList (fun _ : Int × Int => Int))

/-- Python `elements.get((row, col), 0)`. -/
def EMap.getD0 (d : EMap) (k : Int × Int) : Int :=
  (d.lookup k).getD 0

theorem EMap.lookup_insert (d : EMap) (k : Int × Int) (v : Int) :
    (d.insert k v).lookup k = some v :=
  AList.lookup_insert _

theorem EMap.lookup_insert_ne (d : EMap) {k k' : Int × Int} (v : Int) (h : k' ≠ k) :
    (d.insert k v).lookup k' = d.lookup k' :=
  AList.lookup_insert_ne h

theorem EMap.lookup_erase (d : EMap) (k : Int × Int) :
    (d.erase k).lookup k = none :=
  AList.lookup_erase _ _

theorem EMap.lookup_erase_ne (d : EMap) {k k' : Int × Int} (h : k' ≠ k) :
    (d.erase k).lookup k' = d.lookup k' :=
  AList.lookup_erase_ne h

theorem EMap.lookup_empty (k : Int × Int) : (∅ : EMap).lookup k = none :=
  rfl

theorem EMap.nodupKeys (d : EMap) : d.entries.NodupKeys :=
  AList.nodupKeys (d : AList (fun _ : Int × Int => Int))

/-- The `SparseMatrix` value: dimensions plus the sparse element dictionary. -/
structure SparseMatrix where
  num_rows : Int
  num_cols : Int
  elements : EMap

/-- Python `get_element`: `self.elements.get((row, col), 0)`.  Total, no
bounds check of any kind. -/
def SparseMatrix.get_element (m : SparseMatrix) (row col : Int) : Int :=
  (m.elements.lookup (row, col)).getD 0

/-- Python `set_element`: insert when `value != 0`, delete the key when
`value == 0` (the Python `del` is guarded by membership; erasing an absent
key is likewise a no-op here). -/
def SparseMatrix.set_element (m : SparseMatrix) (row col value : Int) : SparseMatrix :=
  if value ≠ 0 then { m with elements := m.elements.insert (row, col) value }
  else { m with elements := m.elements.erase (row, col) }

/-- The two error kinds the operations can raise (`ValueError` in Python,
split by cause as in the spec's taxonomy). -/
inductive MatError where
  | dimensionMismatch : MatError
  | formatError : MatError
deriving DecidableEq

/-- Invariant I1: no stored entry has value 0. -/
def I1 (m : SparseMatrix) : Prop :=
  ∀ k : Int × Int, m.elements.lookup k ≠ some 0

instance (m : SparseMatrix) : Decidable (I1 m) := by
  unfold I1
  have : (∀ e ∈ m.elements.entries, e.2 ≠ 0) ↔
      ∀ k : Int × Int, m.elements.lookup k ≠ some 0 := by
    constructor
    · intro h k hk
      have hmem : (⟨k, (0 : Int)⟩ : Sigma (fun _ : Int × Int => Int)) ∈ m.elements.entries :=
        List.of_mem_dlookup (Option.mem_def.mpr hk)
      exact h _ hmem rfl
    · intro h e he hv
      have hk : m.elements.lookup e.1 = some e.2 :=
        List.mem_dlookup (AList.nodupKeys _) (by cases e; exact he)
      rw [hv] at hk
      exact h e.1 hk
  exact decidable_of_iff _ this

/-- One step of the Python `__add__` loop over `other.elements.items()`:
`result.elements[k] = result.get_element(k) + v` followed by
`del result.elements[k]` when the written value is 0 (write-then-delete
nets to erase). -/
def addStep (acc : EMap) (e : Sigma (fun _ : Int × Int => Int)) : EMap :=
  if acc.getD0 e.1 + e.2 = 0 then acc.erase e.1
  else acc.insert e.1 (acc.getD0 e.1 + e.2)

/-- Python `__add__`: dimension check, copy `self.elements`, then fold the
add step over `other.elements.items()`. -/
def SparseMatrix.add (A B : SparseMatrix) : Except MatError SparseMatrix :=
  if A.num_rows ≠ B.num_rows ∨ A.num_cols ≠ B.num_cols then
    .error .dimensionMismatch
  else
    .ok { num_rows := A.num_rows, num_cols := A.num_cols,
          elements := B.elements.entries.foldl addStep A.elements }

/-- One step of the Python `__sub__` loop:
`result.set_element(r, c, result.get_element(r, c) - v)`. -/
def subStep (acc : EMap) (e : Sigma (fun _ : Int × Int => Int)) : EMap :=
  if acc.getD0 e.1 - e.2 ≠ 0 then acc.insert e.1 (acc.getD0 e.1 - e.2)
  else acc.erase e.1

/-- Python `__sub__`: dimension check, copy `self.elements`, then fold the
`set_element` step over `other.elements.items()`. -/
def SparseMatrix.sub (A B : SparseMatrix) : Except MatError SparseMatrix :=
  if A.num_rows ≠ B.num_rows ∨ A.num_cols ≠ B.num_cols then
    .error .dimensionMismatch
  else
    .ok { num_rows := A.num_rows, num_cols := A.num_cols,
          elements := B.elements.entries.foldl subStep A.elements }

theorem addStep_lookup (acc : EMap) (e : Sigma (fun _ : Int × Int => Int))
    (k : Int × Int) :
    (addStep acc e).lookup k =
      if k = e.1 then
        (if acc.getD0 e.1 + e.2 = 0 then none else some (acc.getD0 e.1 + e.2))
      else acc.lookup k := by
  unfold addStep
  by_cases hz : acc.getD0 e.1 + e.2 = 0 <;> by_cases hk : k = e.1 <;>
    simp [hz, hk, EMap.lookup_insert, EMap.lookup_insert_ne, EMap.lookup_erase,
      EMap.lookup_erase_ne]

theorem subStep_lookup (acc : EMap) (e : Sigma (fun _ : Int × Int => Int))
    (k : Int × Int) :
    (subStep acc e).lookup k =
      if k = e.1 then
        (if acc.getD0 e.1 - e.2 = 0 then none else some (acc.getD0 e.1 - e.2))
      else acc.lookup k := by
  unfold subStep
  by_cases hz : acc.getD0 e.1 - e.2 = 0 <;> by_cases hk : k = e.1 <;>
    simp [hz, hk, EMap.lookup_insert, EMap.lookup_insert_ne, EMap.lookup_erase,
      EMap.lookup_erase_ne]

theorem foldl_addStep_getD0 (l : List (Sigma (fun _ : Int × Int => Int))) :
    l.NodupKeys → ∀ (acc : EMap) (k : Int × Int),
      ((l.foldl addStep acc).lookup k).getD 0 =
        (acc.lookup k).getD 0 + (l.dlookup k).getD 0 := by
  induction l with
  | nil => intro _ acc k; simp
  | cons e t ih =>
    intro hl acc k
    obtain ⟨he, ht⟩ := List.nodupKeys_cons.mp hl
    rw [List.foldl_cons, ih ht _ _]
    by_cases hk : k = e.1
    · subst hk
      have h1 : t.dlookup e.1 = none := List.dlookup_eq_none.mpr he
      have h2 : List.dlookup e.1 (e :: t) = some e.2 := by
        cases e; exact List.dlookup_cons_eq _ _ _
      rw [addStep_lookup, if_pos rfl, h1, h2]
      by_cases hz : acc.getD0 e.1 + e.2 = 0
      · simp only [if_pos hz, Option.getD_none, Option.getD_some]
        unfold EMap.getD0 at hz
        omega
      · simp only [if_neg hz, Option.getD_some, Option.getD_none]
        unfold EMap.getD0
        omega
    · rw [addStep_lookup, if_neg hk, List.dlookup_cons_ne _ _ hk]

theorem foldl_subStep_getD0 (l : List (Sigma (fun _ : Int × Int => Int))) :
    l.NodupKeys → ∀ (acc : EMap) (k : Int × Int),
      ((l.foldl subStep acc).lookup k).getD 0 =
        (acc.lookup k).getD 0 - (l.dlookup k).getD 0 := by
  induction l with
  | nil => intro _ acc k; simp
  | cons e t ih =>
    intro hl acc k
    obtain ⟨he, ht⟩ := List.nodupKeys_cons.mp hl
    rw [List.foldl_cons, ih ht _ _]
    by_cases hk : k = e.1
    · subst hk
      have h1 : t.dlookup e.1 = none := List.dlookup_eq_none.mpr he
      have h2 : List.dlookup e.1 (e :: t) = some e.2 := by
        cases e; exact List.dlookup_cons_eq _ _ _
      rw [subStep_lookup, if_pos rfl, h1, h2]
      by_cases hz : acc.getD0 e.1 - e.2 = 0
      · simp only [if_pos hz, Option.getD_none, Option.getD_some]
        unfold EMap.getD0 at hz
        omega
      · simp only [if_neg hz, Option.getD_some, Option.getD_none]
        unfold EMap.getD0
        omega
    · rw [subStep_lookup, if_neg hk, List.dlookup_cons_ne _ _ hk]

theorem add_eq_ok (A B : SparseMatrix)
    (h1 : A.num_rows = B.num_rows) (h2 : A.num_cols = B.num_cols) :
    A.add B = .ok { num_rows := A.num_rows, num_cols := A.num_cols,
                    elements := B.elements.entries.foldl addStep A.elements } := by
  unfold SparseMatrix.add
  rw [if_neg]
  push_neg
  exact ⟨h1, h2⟩

theorem sub_eq_ok (A B : SparseMatrix)
    (h1 : A.num_rows = B.num_rows) (h2 : A.num_cols = B.num_cols) :
    A.sub B = .ok { num_rows := A.num_rows, num_cols := A.num_cols,
                    elements := B.elements.entries.foldl subStep A.elements } := by
  unfold SparseMatrix.sub
  rw [if_neg]
  push_neg
  exact ⟨h1, h2⟩

theorem add_ok_inv (A B C : SparseMatrix) (hC : A.add B = .ok C) :
    A.num_rows = B.num_rows ∧ A.num_cols = B.num_cols ∧
      C = { num_rows := A.num_rows, num_cols := A.num_cols,
            elements := B.elements.entries.foldl addStep A.elements } := by
  unfold SparseMatrix.add at hC
  by_cases h : A.num_rows ≠ B.num_rows ∨ A.num_cols ≠ B.num_cols
  · rw [if_pos h] at hC
    exact absurd hC (by simp)
  · push_neg at h
    rw [if_neg (by push_neg; exact h)] at hC
    exact ⟨h.1, h.2, (Except.ok.inj hC).symm⟩

theorem sub_ok_inv (A B C : SparseMatrix) (hC : A.sub B = .ok C) :
    A.num_rows = B.num_rows ∧ A.num_cols = B.num_cols ∧
      C = { num_rows := A.num_rows, num_cols := A.num_cols,
            elements := B.elements.entries.foldl subStep A.elements } := by
  unfold SparseMatrix.sub at hC
  by_cases h : A.num_rows ≠ B.num_rows ∨ A.num_cols ≠ B.num_cols
  · rw [if_pos h] at hC
    exact absurd hC (by simp)
  · push_neg at h
    rw [if_neg (by push_neg; exact h)] at hC
    exact ⟨h.1, h.2, (Except.ok.inj hC).symm⟩

theorem add_get (A B C : SparseMatrix) (hC : A.add B = .ok C) (r c : Int) :
    C.get_element r c = A.get_element r c + B.get_element r c := by
  obtain ⟨h1, h2, rfl⟩ := add_ok_inv A B C hC
  show ((B.elements.entries.foldl addStep A.elements).lookup (r, c)).getD 0 = _
  rw [foldl_addStep_getD0 B.elements.entries (EMap.nodupKeys B.elements) A.elements (r, c)]
  rfl

theorem sub_get (A B C : SparseMatrix) (hC : A.sub B = .ok C) (r c : Int) :
    C.get_element r c = A.get_element r c - B.get_element r c := by
  obtain ⟨h1, h2, rfl⟩ := sub_ok_inv A B C hC
  show ((B.elements.entries.foldl subStep A.elements).lookup (r, c)).getD 0 = _
  rw [foldl_subStep_getD0 B.elements.entries (EMap.nodupKeys B.elements) A.elements (r, c)]
  rfl

theorem foldl_addStep_I1 (l : List (Sigma (fun _ : Int × Int => Int))) :
    ∀ (acc : EMap), (∀ k, acc.lookup k ≠ some 0) →
      ∀ k, (l.foldl addStep acc).lookup k ≠ some 0 := by
  induction l with
  | nil => intro acc hacc k; exact hacc k
  | cons e t ih =>
    intro acc hacc k
    refine ih _ ?_ k
    intro k'
    rw [addStep_lookup]
    by_cases hk : k' = e.1
    · rw [if_pos hk]
      by_cases hz : acc.getD0 e.1 + e.2 = 0
      · simp [hz]
      · rw [if_neg hz]
        simpa using hz
    · rw [if_neg hk]
      exact hacc k'

theorem foldl_subStep_I1 (l : List (Sigma (fun _ : Int × Int => Int))) :
    ∀ (acc : EMap), (∀ k, acc.lookup k ≠ some 0) →
      ∀ k, (l.foldl subStep acc).lookup k ≠ some 0 := by
  induction l with
  | nil => intro acc hacc k; exact hacc k
  | cons e t ih =>
    intro acc hacc k
    refine ih _ ?_ k
    intro k'
    rw [subStep_lookup]
    by_cases hk : k' = e.1
    · rw [if_pos hk]
      by_cases hz : acc.getD0 e.1 - e.2 = 0
      · simp [hz]
      · rw [if_neg hz]
        simpa using hz
    · rw [if_neg hk]
      exact hacc k'

/-- C4: for same-shaped matrices `A` and `B`, `Add(A, B)` succeeds, subtracting
`B` from that result succeeds, and the final matrix is element-wise equal to
`A`: `get_element` on it agrees with `A.get_element` at every coordinate,
exactly (integer arithmetic). -/
theorem claim_C4_sub_add_cancel (A B : SparseMatrix)
    (h1 : A.num_rows = B.num_rows) (h2 : A.num_cols = B.num_cols) :
    ∃ C D, A.add B = .ok C ∧ C.sub B = .ok D ∧
      ∀ r c : Int, D.get_element r c = A.get_element r c := by
  obtain ⟨C, hC⟩ : ∃ C, A.add B = .ok C := ⟨_, add_eq_ok A B h1 h2⟩
  obtain ⟨hr, hc, hCe⟩ := add_ok_inv A B C hC
  have hCr : C.num_rows = B.num_rows := by rw [hCe]; exact h1
  have hCc : C.num_cols = B.num_cols := by rw [hCe]; exact h2
  obtain ⟨D, hD⟩ : ∃ D, C.sub B = .ok D := ⟨_, sub_eq_ok C B hCr hCc⟩
  refine ⟨C, D, hC, hD, ?_⟩
  intro r c
  rw [sub_get C B D hD r c, add_get A B C hC r c]
  ring

/-- C5: when both operands of `Add`/`Subtract` satisfy invariant I1 (no stored
entry is 0), every matrix those operations return satisfies I1 as well. -/
theorem claim_C5_add_sub_preserve_I1 (A B C D : SparseMatrix) (hA : I1 A) (hB : I1 B)
    (hC : A.add B = .ok C) (hD : A.sub B = .ok D) : I1 C ∧ I1 D := by
  obtain ⟨-, -, hCe⟩ := add_ok_inv A B C hC
  obtain ⟨-, -, hDe⟩ := sub_ok_inv A B D hD
  subst hCe
  subst hDe
  exact ⟨fun k => foldl_addStep_I1 B.elements.entries A.elements hA k,
         fun k => foldl_subStep_I1 B.elements.entries A.elements hA k⟩

/-- C6: `get_element` returns 0 at every coordinate with no stored entry,
out-of-range coordinates included; the function is total, so no error can be
raised. -/
theorem claim_C6_get_absent_zero (M : SparseMatrix) (r c : Int)
    (h : M.elements.lookup (r, c) = none) : M.get_element r c = 0 := by
  unfold SparseMatrix.get_element
  rw [h]
  rfl

/-- Builds an element dictionary from an assignment list (used only to state
concrete instances of the theorems). -/
def EMap.ofList (l : List ((Int × Int) × Int)) : EMap :=
  l.foldl (fun d p => d.insert p.1 p.2) ∅

/-- Scenario matrix A of the spec: 2×2 with entries (0,0)↦1, (1,1)↦2. -/
def wA : SparseMatrix := ⟨2, 2, EMap.ofList [((0, 0), 1), ((1, 1), 2)]⟩

/-- Scenario matrix B of the spec: 2×2 with entries (0,0)↦3, (0,1)↦4. -/
def wB : SparseMatrix := ⟨2, 2, EMap.ofList [((0, 0), 3), ((0, 1), 4)]⟩

/-- The matrix `Add(wA, wB)` produces in the model. -/
def wCadd : SparseMatrix :=
  { num_rows := wA.num_rows, num_cols := wA.num_cols,
    elements := wB.elements.entries.foldl addStep wA.elements }

/-- The matrix `Subtract(wA, wB)` produces in the model. -/
def wDsub : SparseMatrix :=
  { num_rows := wA.num_rows, num_cols := wA.num_cols,
    elements := wB.elements.entries.foldl subStep wA.elements }

theorem claim_C4_witness :
    wA.num_rows = wB.num_rows ∧ wA.num_cols = wB.num_cols ∧
      (∃ C D, wA.add wB = .ok C ∧ C.sub wB = .ok D ∧
        ∀ r c : Int, D.get_element r c = wA.get_element r c) :=
  ⟨rfl, rfl, claim_C4_sub_add_cancel wA wB rfl rfl⟩

theorem claim_C5_witness : I1 wCadd ∧ I1 wDsub :=
  claim_C5_add_sub_preserve_I1 wA wB wCadd wDsub (by decide) (by decide) rfl rfl

theorem claim_C6_witness :
    wA.elements.lookup (5, 7) = none ∧ wA.get_element 5 7 = 0 :=
  ⟨by decide, claim_C6_get_absent_zero wA 5 7 (by decide)⟩

/-- The keys of the Python index `self_by_row` built by `__mul__`: rows of `A`
having at least one stored entry (each distinct row once). -/
def selfRows (A : SparseMatrix) : List Int :=
  (A.elements.entries.map (fun e => e.1.1)).dedup

/-- The keys of the Python index `other_by_col`: columns of `B` having at
least one stored entry (each distinct column once). -/
def otherCols (B : SparseMatrix) : List Int :=
  (B.elements.entries.map (fun e => e.1.2)).dedup

/-- The keys of `self_by_row[i]`: columns `k` with an entry stored at `(i, k)`. -/
def rowCols (A : SparseMatrix) (i : Int) : List Int :=
  A.elements.entries.filterMap (fun e => if e.1.1 = i then some e.1.2 else none)

/-- The keys of `other_by_col[j]`: rows `k` with an entry stored at `(k, j)`. -/
def colRows (B : SparseMatrix) (j : Int) : List Int :=
  B.elements.entries.filterMap (fun e => if e.1.2 = j then some e.1.1 else none)

/-- The Python `product_sum` for the pair `(i, j)`: the sum of
`self_by_row[i][k] * other_by_col[j][k]` over `k` in the intersection of the
two key sets (integer sums do not depend on the iteration order of the set). -/
def product_sum (A B : SparseMatrix) (i j : Int) : Int :=
  (((rowCols A i).filter (fun k => decide (k ∈ colRows B j))).map
    (fun k => A.get_element i k * B.get_element k j)).sum

/-- The conditional write `if product_sum != 0: result.elements[(i, j)] = product_sum`. -/
def mulwrite (A B : SparseMatrix) (acc : EMap) (i j : Int) : EMap :=
  if product_sum A B i j ≠ 0 then acc.insert (i, j) (product_sum A B i j) else acc

/-- The element dictionary built by the `__mul__` double loop
`for i in self_by_row: for j in other_by_col: ...`. -/
def mulElems (A B : SparseMatrix) : EMap :=
  (selfRows A).foldl
    (fun acc i => (otherCols B).foldl (fun acc j => mulwrite A B acc i j) acc) ∅

/-- Python `__mul__`: inner-dimension check, then the indexed sparse product. -/
def SparseMatrix.mul (A B : SparseMatrix) : Except MatError SparseMatrix :=
  if A.num_cols ≠ B.num_rows then .error .dimensionMismatch
  else .ok { num_rows := A.num_rows, num_cols := B.num_cols,
             elements := mulElems A B }

theorem mul_eq_ok (A B : SparseMatrix) (h : A.num_cols = B.num_rows) :
    A.mul B = .ok { num_rows := A.num_rows, num_cols := B.num_cols,
                    elements := mulElems A B } := by
  unfold SparseMatrix.mul
  rw [if_neg (by push_neg; exact h)]

theorem mul_ok_inv (A B C : SparseMatrix) (hC : A.mul B = .ok C) :
    A.num_cols = B.num_rows ∧
      C = { num_rows := A.num_rows, num_cols := B.num_cols,
            elements := mulElems A B } := by
  unfold SparseMatrix.mul at hC
  by_cases h : A.num_cols ≠ B.num_rows
  · rw [if_pos h] at hC
    exact absurd hC (by simp)
  · push_neg at h
    rw [if_neg (by push_neg; exact h)] at hC
    exact ⟨h, (Except.ok.inj hC).symm⟩

theorem foldl_foldl_eq_product (cols : List Int) (g : EMap → Int → Int → EMap) :
    ∀ (rows : List Int) (init : EMap),
      rows.foldl (fun acc i => cols.foldl (fun acc j => g acc i j) acc) init =
        (rows ×ˢ cols).foldl (fun acc p => g acc p.1 p.2) init := by
  intro rows
  induction rows with
  | nil => intro init; rfl
  | cons a t ih =>
    intro init
    rw [List.foldl_cons, ih, List.product_cons, List.foldl_append, List.foldl_map]

theorem lookup_foldl_mulwrite (A B : SparseMatrix) (L : List (Int × Int)) :
    ∀ (init : EMap) (k : Int × Int),
      (L.foldl (fun acc p => mulwrite A B acc p.1 p.2) init).lookup k =
        if k ∈ L ∧ product_sum A B k.1 k.2 ≠ 0 then some (product_sum A B k.1 k.2)
        else init.lookup k := by
  induction L with
  | nil =>
    intro init k
    rw [List.foldl_nil, if_neg (by simp)]
  | cons p t ih =>
    intro init k
    rw [List.foldl_cons, ih]
    rcases Decidable.em (product_sum A B k.1 k.2 = 0) with hz | hz
    · rw [if_neg (fun h => h.2 hz), if_neg (fun h => h.2 hz)]
      unfold mulwrite
      by_cases hzp : product_sum A B p.1 p.2 ≠ 0
      · rw [if_pos hzp]
        refine EMap.lookup_insert_ne _ _ (fun hkp => hzp ?_)
        rw [hkp] at hz
        simpa using hz
      · rw [if_neg hzp]
    · by_cases hin : k ∈ t
      · rw [if_pos ⟨hin, hz⟩, if_pos ⟨List.mem_cons_of_mem _ hin, hz⟩]
      · rw [if_neg (fun h => hin h.1)]
        by_cases hkp : k = p
        · subst hkp
          rw [if_pos ⟨List.mem_cons_self _ _, hz⟩]
          unfold mulwrite
          rw [if_pos hz]
          have he : (k.1, k.2) = k := Prod.mk.eta
          rw [he]
          exact EMap.lookup_insert _ _ _
        · rw [if_neg (fun h => by
            rcases List.mem_cons.mp h.1 with h' | h'
            · exact hkp h'
            · exact hin h')]
          unfold mulwrite
          by_cases hzp : product_sum A B p.1 p.2 ≠ 0
          · rw [if_pos hzp]
            refine EMap.lookup_insert_ne _ _ (fun hke => hkp ?_)
            rw [hke]
          · rw [if_neg hzp]

theorem mulElems_lookup (A B : SparseMatrix) (i j : Int) :
    (mulElems A B).lookup (i, j) =
      if i ∈ selfRows A ∧ j ∈ otherCols B ∧ product_sum A B i j ≠ 0
      then some (product_sum A B i j) else none := by
  unfold mulElems
  rw [foldl_foldl_eq_product, lookup_foldl_mulwrite]
  by_cases hm : (i, j) ∈ selfRows A ×ˢ otherCols B ∧ product_sum A B i j ≠ 0
  · rw [if_pos hm, if_pos ⟨(List.mem_product.mp hm.1).1, (List.mem_product.mp hm.1).2, hm.2⟩]
  · rw [if_neg hm, if_neg (fun h => hm ⟨List.mem_product.mpr ⟨h.1, h.2.1⟩, h.2.2⟩)]
    exact EMap.lookup_empty _

/-- All indices `k` that can contribute to the `(i, j)` dot product: the
columns stored in row `i` of `A` together with the rows stored in column `j`
of `B`, each once.  For every `k` outside this list the term
`A[i,k] * B[k,j]` is 0 (proved below), so summing over it is summing over
all of `ℤ`. -/
def dotKeys (A B : SparseMatrix) (i j : Int) : List Int :=
  (rowCols A i ++ colRows B j).dedup

/-- The exact integer dot product `Σ_k A.get_element(i,k) * B.get_element(k,j)`. -/
def dotSum (A B : SparseMatrix) (i j : Int) : Int :=
  ((dotKeys A B i j).map (fun k => A.get_element i k * B.get_element k j)).sum

theorem mem_rowCols (A : SparseMatrix) (i k : Int) :
    k ∈ rowCols A i ↔ (A.elements.lookup (i, k)).isSome := by
  unfold rowCols
  rw [List.mem_filterMap]
  constructor
  · rintro ⟨e, he, hek⟩
    obtain ⟨⟨r, c⟩, v⟩ := e
    by_cases h : r = i
    · simp only [h, if_pos rfl] at hek
      obtain rfl : c = k := by simpa using hek
      subst h
      have : A.elements.lookup (r, c) = some v :=
        List.mem_dlookup (EMap.nodupKeys _) he
      rw [this]
      rfl
    · rw [if_neg (by simpa using h)] at hek
      cases hek
  · intro h
    obtain ⟨v, hv⟩ := Option.isSome_iff_exists.mp h
    refine ⟨⟨(i, k), v⟩, List.of_mem_dlookup (Option.mem_def.mpr hv), ?_⟩
    simp

theorem mem_colRows (B : SparseMatrix) (j k : Int) :
    k ∈ colRows B j ↔ (B.elements.lookup (k, j)).isSome := by
  unfold colRows
  rw [List.mem_filterMap]
  constructor
  · rintro ⟨e, he, hek⟩
    obtain ⟨⟨r, c⟩, v⟩ := e
    by_cases h : c = j
    · simp only [h, if_pos rfl] at hek
      obtain rfl : r = k := by simpa using hek
      subst h
      have : B.elements.lookup (r, c) = some v :=
        List.mem_dlookup (EMap.nodupKeys _) he
      rw [this]
      rfl
    · rw [if_neg (by simpa using h)] at hek
      cases hek
  · intro h
    obtain ⟨v, hv⟩ := Option.isSome_iff_exists.mp h
    refine ⟨⟨(k, j), v⟩, List.of_mem_dlookup (Option.mem_def.mpr hv), ?_⟩
    simp

theorem get_zero_of_not_mem_rowCols (A : SparseMatrix) (i k : Int)
    (h : k ∉ rowCols A i) : A.get_element i k = 0 := by
  rw [mem_rowCols] at h
  unfold SparseMatrix.get_element
  rw [Option.not_isSome_iff_eq_none.mp h]
  rfl

theorem get_zero_of_not_mem_colRows (B : SparseMatrix) (j k : Int)
    (h : k ∉ colRows B j) : B.get_element k j = 0 := by
  rw [mem_colRows] at h
  unfold SparseMatrix.get_element
  rw [Option.not_isSome_iff_eq_none.mp h]
  rfl

theorem rowCols_nodup (A : SparseMatrix) (i : Int) : (rowCols A i).Nodup := by
  have he : rowCols A i = (A.elements.entries.map Sigma.fst).filterMap
      (fun p => if p.1 = i then some p.2 else none) := by
    rw [List.filterMap_map]
    rfl
  rw [he]
  refine List.Nodup.filterMap ?_ (EMap.nodupKeys A.elements)
  intro p q b hp hq
  obtain ⟨p1, p2⟩ := p
  obtain ⟨q1, q2⟩ := q
  by_cases h1 : p1 = i
  · by_cases h2 : q1 = i
    · rw [Option.mem_def, if_pos h1, Option.some.injEq] at hp
      rw [Option.mem_def, if_pos h2, Option.some.injEq] at hq
      have hp2 : p2 = b := hp
      have hq2 : q2 = b := hq
      rw [h1, h2, hp2, hq2]
    · rw [if_neg (by simpa using h2)] at hq
      cases hq
  · rw [if_neg (by simpa using h1)] at hp
    cases hp

theorem product_sum_eq_dotSum (A B : SparseMatrix) (i j : Int) :
    product_sum A B i j = dotSum A B i j := by
  have hnd1 : ((rowCols A i).filter (fun k => decide (k ∈ colRows B j))).Nodup :=
    (rowCols_nodup A i).filter _
  have hnd2 : (dotKeys A B i j).Nodup := List.nodup_dedup _
  unfold product_sum dotSum
  rw [← List.sum_toFinset _ hnd1, ← List.sum_toFinset _ hnd2]
  refine Finset.sum_subset ?_ ?_
  · intro x hx
    rw [List.mem_toFinset] at hx ⊢
    unfold dotKeys
    rw [List.mem_dedup, List.mem_append]
    exact Or.inl (List.mem_filter.mp hx).1
  · intro x hx hnx
    rw [List.mem_toFinset] at hx hnx
    unfold dotKeys at hx
    rw [List.mem_dedup, List.mem_append] at hx
    by_cases hr : x ∈ rowCols A i
    · have hc : x ∉ colRows B j := by
        intro hcx
        exact hnx (List.mem_filter.mpr ⟨hr, by simpa using hcx⟩)
      rw [get_zero_of_not_mem_colRows B j x hc, mul_zero]
    · rw [get_zero_of_not_mem_rowCols A i x hr, zero_mul]

theorem lookup_mem_selfRows (A : SparseMatrix) (i k : Int)
    (h : (A.elements.lookup (i, k)).isSome) : i ∈ selfRows A := by
  obtain ⟨v, hv⟩ := Option.isSome_iff_exists.mp h
  unfold selfRows
  rw [List.mem_dedup, List.mem_map]
  exact ⟨⟨(i, k), v⟩, List.of_mem_dlookup (Option.mem_def.mpr hv), rfl⟩

theorem lookup_mem_otherCols (B : SparseMatrix) (k j : Int)
    (h : (B.elements.lookup (k, j)).isSome) : j ∈ otherCols B := by
  obtain ⟨v, hv⟩ := Option.isSome_iff_exists.mp h
  unfold otherCols
  rw [List.mem_dedup, List.mem_map]
  exact ⟨⟨(k, j), v⟩, List.of_mem_dlookup (Option.mem_def.mpr hv), rfl⟩

theorem dotSum_zero_of_not_mem_selfRows (A B : SparseMatrix) (i j : Int)
    (h : i ∉ selfRows A) : dotSum A B i j = 0 := by
  unfold dotSum
  refine List.sum_eq_zero ?_
  intro x hx
  rw [List.mem_map] at hx
  obtain ⟨k, -, rfl⟩ := hx
  have hz : A.get_element i k = 0 := by
    refine get_zero_of_not_mem_rowCols A i k (fun hk => h ?_)
    exact lookup_mem_selfRows A i k ((mem_rowCols A i k).mp hk)
  rw [hz, zero_mul]

theorem dotSum_zero_of_not_mem_otherCols (A B : SparseMatrix) (i j : Int)
    (h : j ∉ otherCols B) : dotSum A B i j = 0 := by
  unfold dotSum
  refine List.sum_eq_zero ?_
  intro x hx
  rw [List.mem_map] at hx
  obtain ⟨k, -, rfl⟩ := hx
  have hz : B.get_element k j = 0 := by
    refine get_zero_of_not_mem_colRows B j k (fun hk => h ?_)
    exact lookup_mem_otherCols B k j ((mem_colRows B j k).mp hk)
  rw [hz, mul_zero]

/-- C1: with compatible inner dimensions, `Multiply(A, B)` succeeds; the
result has `A.num_rows` rows and `B.num_cols` columns; `get_element (i, j)`
equals the exact integer dot product `Σ_k A[i,k] * B[k,j]` (the sum over
`dotKeys`, every other `k` contributing 0); and an entry is stored at
`(i, j)` only when that sum is non-zero. -/
theorem claim_C1_mul_correct (A B : SparseMatrix) (h : A.num_cols = B.num_rows) :
    ∃ C, A.mul B = .ok C ∧ C.num_rows = A.num_rows ∧ C.num_cols = B.num_cols ∧
      (∀ i j : Int, C.get_element i j = dotSum A B i j) ∧
      (∀ i j k : Int, k ∉ dotKeys A B i j →
        A.get_element i k * B.get_element k j = 0) ∧
      (∀ i j : Int, (C.elements.lookup (i, j)).isSome → dotSum A B i j ≠ 0) := by
  refine ⟨_, mul_eq_ok A B h, rfl, rfl, ?_, ?_, ?_⟩
  · intro i j
    show ((mulElems A B).lookup (i, j)).getD 0 = _
    rw [mulElems_lookup]
    by_cases hc : i ∈ selfRows A ∧ j ∈ otherCols B ∧ product_sum A B i j ≠ 0
    · rw [if_pos hc, Option.getD_some, product_sum_eq_dotSum]
    · rw [if_neg hc, Option.getD_none]
      push_neg at hc
      by_cases h1 : i ∈ selfRows A
      · by_cases h2 : j ∈ otherCols B
        · rw [← product_sum_eq_dotSum]
          exact (hc h1 h2).symm
        · exact (dotSum_zero_of_not_mem_otherCols A B i j h2).symm
      · exact (dotSum_zero_of_not_mem_selfRows A B i j h1).symm
  · intro i j k hk
    unfold dotKeys at hk
    rw [List.mem_dedup, List.mem_append] at hk
    push_neg at hk
    rw [get_zero_of_not_mem_rowCols A i k hk.1, zero_mul]
  · intro i j hs
    have hs' : ((mulElems A B).lookup (i, j)).isSome := hs
    rw [mulElems_lookup] at hs'
    by_cases hc : i ∈ selfRows A ∧ j ∈ otherCols B ∧ product_sum A B i j ≠ 0
    · rw [← product_sum_eq_dotSum]
      exact hc.2.2
    · rw [if_neg hc] at hs'
      cases hs'

/-- C10: every matrix `Multiply` returns satisfies invariant I1, with no
assumption on the operands: an entry is written only when the computed
`product_sum` is non-zero. -/
theorem claim_C10_mul_I1 (A B C : SparseMatrix) (hC : A.mul B = .ok C) : I1 C := by
  obtain ⟨-, hCe⟩ := mul_ok_inv A B C hC
  subst hCe
  intro k
  obtain ⟨i, j⟩ := k
  show (mulElems A B).lookup (i, j) ≠ some 0
  rw [mulElems_lookup]
  by_cases hc : i ∈ selfRows A ∧ j ∈ otherCols B ∧ product_sum A B i j ≠ 0
  · rw [if_pos hc]
    intro hcon
    exact hc.2.2 (Option.some.inj hcon)
  · rw [if_neg hc]
    simp

/-- C2: `Add`/`Subtract` fail exactly when the shapes differ, `Multiply`
fails exactly when `A.num_cols ≠ B.num_rows`; in every case the raised error
is `dimensionMismatch`, and a failing call returns no matrix (the `Except`
is an `error`, not an `ok`). -/
theorem claim_C2_dimension_mismatch (A B : SparseMatrix) :
    ((A.add B = .error .dimensionMismatch) ↔
      (A.num_rows ≠ B.num_rows ∨ A.num_cols ≠ B.num_cols)) ∧
    ((A.sub B = .error .dimensionMismatch) ↔
      (A.num_rows ≠ B.num_rows ∨ A.num_cols ≠ B.num_cols)) ∧
    ((A.mul B = .error .dimensionMismatch) ↔ (A.num_cols ≠ B.num_rows)) ∧
    ((∃ e, A.add B = .error e) ↔
      (A.num_rows ≠ B.num_rows ∨ A.num_cols ≠ B.num_cols)) ∧
    ((∃ e, A.sub B = .error e) ↔
      (A.num_rows ≠ B.num_rows ∨ A.num_cols ≠ B.num_cols)) ∧
    ((∃ e, A.mul B = .error e) ↔ (A.num_cols ≠ B.num_rows)) := by
  unfold SparseMatrix.add SparseMatrix.sub SparseMatrix.mul
  by_cases h1 : A.num_rows ≠ B.num_rows ∨ A.num_cols ≠ B.num_cols <;>
    by_cases h2 : A.num_cols ≠ B.num_rows <;>
      simp [h1, h2]

/-- Scenario matrix C of the spec: 2×1 with entries (0,0)↦5, (1,0)↦6. -/
def wE : SparseMatrix := ⟨2, 1, EMap.ofList [((0, 0), 5), ((1, 0), 6)]⟩

/-- The matrix `Multiply(wA, wE)` produces in the model. -/
def wMul : SparseMatrix :=
  { num_rows := wA.num_rows, num_cols := wE.num_cols, elements := mulElems wA wE }

theorem claim_C1_witness :
    wA.num_cols = wE.num_rows ∧
      (∃ C, wA.mul wE = .ok C ∧ C.num_rows = wA.num_rows ∧ C.num_cols = wE.num_cols ∧
        (∀ i j : Int, C.get_element i j = dotSum wA wE i j) ∧
        (∀ i j k : Int, k ∉ dotKeys wA wE i j →
          wA.get_element i k * wE.get_element k j = 0) ∧
        (∀ i j : Int, (C.elements.lookup (i, j)).isSome → dotSum wA wE i j ≠ 0)) :=
  ⟨rfl, claim_C1_mul_correct wA wE rfl⟩

theorem claim_C10_witness : I1 wMul :=
  claim_C10_mul_I1 wA wE wMul rfl

/-!
The coordinate text format.  A file is modelled as its list of lines, each
line a `List Char` (with or without a trailing newline: every place the
Python code consumes a line it first strips whitespace or the characters
`()\n`, so both conventions behave identically).
-/

/-- Python `str.strip()`: drop whitespace from both ends. -/
def pyTrim (l : List Char) : List Char :=
  ((l.dropWhile Char.isWhitespace).reverse.dropWhile Char.isWhitespace).reverse

/-- The character set of Python `line.strip('()\n')`. -/
def parenStrip : List Char := ['(', ')', '\n']

/-- Python `line.strip('()\n')`: drop any of `(`, `)`, newline from both ends. -/
def pyStripParens (l : List Char) : List Char :=
  ((l.dropWhile (fun ch => decide (ch ∈ parenStrip))).reverse.dropWhile
    (fun ch => decide (ch ∈ parenStrip))).reverse

/-- Python `s.split(sep)` for a one-character separator: split on every
occurrence, keeping empty chunks. -/
def splitOnChar (sep : Char) : List Char → List (List Char)
  | [] => [[]]
  | c :: rest =>
    match splitOnChar sep rest with
    | [] => [[c]]
    | f :: r => if c = sep then [] :: f :: r else (c :: f) :: r

/-- Numeric value of a digit character. -/
def digToNat (c : Char) : Nat := c.toNat - 48

/-- An unsigned decimal numeral: non-empty, all digits. -/
def parseDigits (l : List Char) : Option Nat :=
  if l ≠ [] ∧ l.all Char.isDigit then
    some (l.foldl (fun a c => 10 * a + digToNat c) 0)
  else none

/-- Python `int(s)`: strip whitespace, optional sign, decimal digits. -/
def pyInt (l : List Char) : Option Int :=
  if (pyTrim l).head? = some '-' then
    (parseDigits (pyTrim l).tail).map (fun m => -(m : Int))
  else if (pyTrim l).head? = some '+' then
    (parseDigits (pyTrim l).tail).map (fun m => (m : Int))
  else (parseDigits (pyTrim l)).map (fun m => (m : Int))

/-- One header line, Python `int(line.split('=')[1].strip())`: the text
between the first `=` and the next `=` (or the end of the line), trimmed,
as an integer.  `none` when the line has no `=` (`IndexError`) or the field
is not a numeral (`ValueError`).  Note the label before `=` is never
inspected. -/
def parseHeaderLine (l : List Char) : Option Int :=
  match splitOnChar '=' l with
  | _ :: f :: _ => pyInt f
  | _ => none

/-- One entry line: `entry = line.strip('()\n')` then
`row, col, value = map(int, entry.split(','))` — exactly three
comma-separated integer fields. -/
def parseEntryLine (l : List Char) : Option (Int × Int × Int) :=
  match splitOnChar ',' (pyStripParens l) with
  | [a, b, c] =>
    match pyInt a, pyInt b, pyInt c with
    | some r, some co, some v => some (r, co, v)
    | _, _, _ => none
  | _ => none

/-- The loop over `lines[2:]`: skip blank lines, parse each remaining line
as an entry and store it by direct dict insertion `elements[(row, col)] =
value` (not `set_element`), stopping with an error at the first bad line. -/
def parseEntriesLoop : List (List Char) → EMap → Except MatError EMap
  | [], acc => .ok acc
  | l :: ls, acc =>
    if pyTrim l = [] then parseEntriesLoop ls acc
    else
      match parseEntryLine l with
      | some (r, c, v) => parseEntriesLoop ls (acc.insert (r, c) v)
      | none => .error .formatError

/-- Python `_read_matrix_from_file` on the file's lines: parse the two
header integers, then every entry line; any failure (missing line, missing
`=`, bad numeral, wrong arity) becomes the single `ValueError`, modelled
as `formatError`. -/
def parse (lines : List (List Char)) : Except MatError SparseMatrix :=
  match lines with
  | l0 :: l1 :: rest =>
    match parseHeaderLine l0, parseHeaderLine l1 with
    | some nr, some nc =>
      match parseEntriesLoop rest ∅ with
      | .ok acc => .ok ⟨nr, nc, acc⟩
      | .error e => .error e
    | _, _ => .error .formatError
  | _ => .error .formatError

/-- Decimal digit character. -/
def digitChar (n : Nat) : Char := Char.ofNat (48 + n)

/-- Decimal numeral of a natural number (no sign, no leading zeros except
for 0 itself), as Python `str` renders it. -/
def natRepr (n : Nat) : List Char :=
  if h : n < 10 then [digitChar n]
  else natRepr (n / 10) ++ [digitChar (n % 10)]
termination_by n
decreasing_by exact Nat.div_lt_self (by omega) (by omega)

/-- Decimal rendering of an integer, as Python f-strings render `int`. -/
def intRepr (n : Int) : List Char :=
  if n < 0 then '-' :: natRepr (-n).toNat else natRepr n.toNat

/-- The text between the parentheses of a serialized entry:
`f"{row}, {col}, {value}"` without the surrounding parens. -/
def entryBody (e : Sigma (fun _ : Int × Int => Int)) : List Char :=
  intRepr e.1.1 ++ ',' :: ' ' :: intRepr e.1.2 ++ ',' :: ' ' :: intRepr e.2

/-- A serialized entry line `f"({row}, {col}, {value})"`. -/
def entryLine (e : Sigma (fun _ : Int × Int => Int)) : List Char :=
  '(' :: entryBody e ++ [')']

/-- The comparison `sorted(self.elements.items())` uses: lexicographic on
the `((row, col), value)` tuple (keys are unique, so the value tiebreak
never fires). -/
def entryLe (e f : Sigma (fun _ : Int × Int => Int)) : Bool :=
  if e.1.1 = f.1.1 then
    (if e.1.2 = f.1.2 then decide (e.2 ≤ f.2) else decide (e.1.2 < f.1.2))
  else decide (e.1.1 < f.1.1)

/-- The entries of `M` sorted as `sorted(self.elements.items())`. -/
def sortedEntries (M : SparseMatrix) : List (Sigma (fun _ : Int × Int => Int)) :=
  M.elements.entries.mergeSort entryLe

/-- Python `__str__`: the `rows=`/`cols=` header lines followed by one line
per stored entry, sorted ascending by `(row, col)`. -/
def serialize (M : SparseMatrix) : List (List Char) :=
  (['r', 'o', 'w', 's', '='] ++ intRepr M.num_rows) ::
  (['c', 'o', 'l', 's', '='] ++ intRepr M.num_cols) ::
  (sortedEntries M).map entryLine

theorem dropWhile_cons_of_neg {p : Char → Bool} {a : Char} {l : List Char}
    (h : p a = false) : (a :: l).dropWhile p = a :: l := by
  rw [List.dropWhile_cons, h]
  simp

theorem dropWhile_cons_of_pos {p : Char → Bool} {a : Char} {l : List Char}
    (h : p a = true) : (a :: l).dropWhile p = l.dropWhile p := by
  rw [List.dropWhile_cons, h]
  simp

theorem digitChar_isDigit {d : Nat} (h : d < 10) : (digitChar d).isDigit = true := by
  interval_cases d <;> decide

theorem digToNat_digitChar {d : Nat} (h : d < 10) : digToNat (digitChar d) = d := by
  interval_cases d <;> decide

theorem isDigit_ne {c x : Char} (h : c.isDigit = true) (hx : x.isDigit = false) :
    c ≠ x := by
  intro he
  rw [he, hx] at h
  cases h

theorem isDigit_not_ws {c : Char} (h : c.isDigit = true) : c.isWhitespace = false := by
  cases hw : c.isWhitespace
  · rfl
  · exfalso
    have hw' := hw
    simp [Char.isWhitespace] at hw'
    rcases hw' with ((rfl | rfl) | rfl) | rfl <;> exact absurd h (by decide)

theorem isDigit_not_paren {c : Char} (h : c.isDigit = true) :
    decide (c ∈ parenStrip) = false := by
  cases hw : decide (c ∈ parenStrip)
  · rfl
  · exfalso
    have hw' := of_decide_eq_true hw
    simp [parenStrip] at hw'
    rcases hw' with rfl | rfl | rfl <;> exact absurd h (by decide)

theorem natRepr_digits (n : Nat) : ∀ c ∈ natRepr n, c.isDigit = true := by
  induction n using Nat.strong_induction_on with
  | _ n ih =>
    rw [natRepr]
    split
    · next h =>
      intro c hc
      rw [List.mem_singleton] at hc
      rw [hc]
      exact digitChar_isDigit h
    · next h =>
      intro c hc
      rw [List.mem_append] at hc
      rcases hc with hc | hc
      · exact ih (n / 10) (Nat.div_lt_self (by omega) (by omega)) c hc
      · rw [List.mem_singleton] at hc
        rw [hc]
        exact digitChar_isDigit (Nat.mod_lt _ (by omega))

theorem natRepr_ne_nil (n : Nat) : natRepr n ≠ [] := by
  rw [natRepr]
  split
  · simp
  · simp

theorem natRepr_snoc (n : Nat) :
    ∃ ds d, natRepr n = ds ++ [d] ∧ d.isDigit = true := by
  rw [natRepr]
  split
  · next h => exact ⟨[], digitChar n, by simp, digitChar_isDigit h⟩
  · next h =>
    exact ⟨natRepr (n / 10), digitChar (n % 10), rfl,
      digitChar_isDigit (Nat.mod_lt _ (by omega))⟩

theorem parseDigits_natRepr (n : Nat) : parseDigits (natRepr n) = some n := by
  have hfold : ∀ m : Nat, (natRepr m).foldl (fun a c => 10 * a + digToNat c) 0 = m := by
    intro m
    induction m using Nat.strong_induction_on with
    | _ m ih =>
      rw [natRepr]
      split
      · next h =>
        simp [digToNat_digitChar h]
      · next h =>
        rw [List.foldl_append, ih (m / 10) (Nat.div_lt_self (by omega) (by omega))]
        simp [digToNat_digitChar (Nat.mod_lt _ (by omega))]
        omega
  unfold parseDigits
  rw [if_pos ⟨natRepr_ne_nil n, List.all_eq_true.mpr (natRepr_digits n)⟩, hfold n]

theorem intRepr_chars (n : Int) : ∀ c ∈ intRepr n, c = '-' ∨ c.isDigit = true := by
  unfold intRepr
  split
  · intro c hc
    rw [List.mem_cons] at hc
    rcases hc with rfl | hc
    · exact Or.inl rfl
    · exact Or.inr (natRepr_digits _ c hc)
  · intro c hc
    exact Or.inr (natRepr_digits _ c hc)

theorem intRepr_head (n : Int) :
    ∃ c cs, intRepr n = c :: cs ∧ (c = '-' ∨ c.isDigit = true) := by
  cases hr : intRepr n with
  | nil =>
    exfalso
    unfold intRepr at hr
    split at hr
    · cases hr
    · exact natRepr_ne_nil _ hr
  | cons c cs =>
    exact ⟨c, cs, rfl, intRepr_chars n c (by rw [hr]; exact List.mem_cons_self _ _)⟩

theorem intRepr_snoc (n : Int) :
    ∃ ds d, intRepr n = ds ++ [d] ∧ d.isDigit = true := by
  unfold intRepr
  split
  · obtain ⟨ds, d, hds, hd⟩ := natRepr_snoc (-n).toNat
    exact ⟨'-' :: ds, d, by rw [hds]; rfl, hd⟩
  · exact natRepr_snoc n.toNat

theorem head_intRepr_not_ws (n : Int) :
    (intRepr n).dropWhile Char.isWhitespace = intRepr n := by
  obtain ⟨c, cs, hc, hcd⟩ := intRepr_head n
  rw [hc]
  refine dropWhile_cons_of_neg ?_
  rcases hcd with rfl | hcd
  · decide
  · exact isDigit_not_ws hcd

theorem pyTrim_eq_of {l : List Char} {n : Int}
    (h : l.dropWhile Char.isWhitespace = intRepr n) : pyTrim l = intRepr n := by
  obtain ⟨ds, d, hds, hd⟩ := intRepr_snoc n
  unfold pyTrim
  rw [h]
  have h2 : (intRepr n).reverse.dropWhile Char.isWhitespace = (intRepr n).reverse := by
    rw [hds, List.reverse_append]
    simp only [List.reverse_singleton, List.singleton_append]
    exact dropWhile_cons_of_neg (isDigit_not_ws hd)
  rw [h2, List.reverse_reverse]

theorem pyTrim_intRepr (n : Int) : pyTrim (intRepr n) = intRepr n :=
  pyTrim_eq_of (head_intRepr_not_ws n)

theorem pyTrim_sp_intRepr (n : Int) : pyTrim (' ' :: intRepr n) = intRepr n :=
  pyTrim_eq_of (by rw [dropWhile_cons_of_pos (by decide)]; exact head_intRepr_not_ws n)

theorem pyInt_of_trim {l : List Char} {n : Int} (h : pyTrim l = intRepr n) :
    pyInt l = some n := by
  unfold pyInt
  rw [h]
  by_cases hn : n < 0
  · rw [intRepr, if_pos hn]
    rw [List.head?_cons, if_pos rfl, List.tail_cons, parseDigits_natRepr]
    have ht : ((-n).toNat : Int) = -n := Int.toNat_of_nonneg (by omega)
    simp [ht]
  · rw [intRepr, if_neg hn]
    cases hnr : natRepr n.toNat with
    | nil => exact absurd hnr (natRepr_ne_nil _)
    | cons c cs =>
      have hcd : c.isDigit = true :=
        natRepr_digits _ c (by rw [hnr]; exact List.mem_cons_self _ _)
      rw [List.head?_cons]
      rw [if_neg (fun hcon => isDigit_ne hcd (by decide) (Option.some.inj hcon))]
      rw [if_neg (fun hcon => isDigit_ne hcd (by decide) (Option.some.inj hcon))]
      rw [← hnr, parseDigits_natRepr]
      have ht : (n.toNat : Int) = n := Int.toNat_of_nonneg (by omega)
      simp [ht]

theorem splitOnChar_ne_nil (sep : Char) (l : List Char) : splitOnChar sep l ≠ [] := by
  induction l with
  | nil => simp [splitOnChar]
  | cons c rest ih =>
    rw [splitOnChar]
    cases h : splitOnChar sep rest with
    | nil => simp
    | cons f r =>
      by_cases hc : c = sep <;> simp [hc]

theorem splitOnChar_not_mem {sep : Char} {l : List Char} (h : sep ∉ l) :
    splitOnChar sep l = [l] := by
  induction l with
  | nil => rfl
  | cons c rest ih =>
    have hc : c ≠ sep := fun he => h (he ▸ List.mem_cons_self _ _)
    rw [splitOnChar, ih (fun hm => h (List.mem_cons_of_mem _ hm))]
    simp [hc]

theorem splitOnChar_append (sep : Char) {a : List Char} (b : List Char)
    (ha : sep ∉ a) :
    splitOnChar sep (a ++ sep :: b) = a :: splitOnChar sep b := by
  induction a with
  | nil =>
    rw [List.nil_append, splitOnChar]
    cases h : splitOnChar sep b with
    | nil => exact absurd h (splitOnChar_ne_nil sep b)
    | cons f r => simp
  | cons c a' ih =>
    have hc : c ≠ sep := fun he => ha (he ▸ List.mem_cons_self _ _)
    rw [List.cons_append, splitOnChar, ih (fun hm => ha (List.mem_cons_of_mem _ hm))]
    simp [hc]

theorem comma_not_mem_intRepr (n : Int) : ',' ∉ intRepr n := by
  intro hm
  rcases intRepr_chars n ',' hm with he | he
  · cases he
  · exact absurd he (by decide)

theorem eq_not_mem_intRepr (n : Int) : '=' ∉ intRepr n := by
  intro hm
  rcases intRepr_chars n '=' hm with he | he
  · cases he
  · exact absurd he (by decide)

theorem parseHeaderLine_label (pre : List Char) (hpre : '=' ∉ pre) (n : Int) :
    parseHeaderLine (pre ++ '=' :: intRepr n) = some n := by
  unfold parseHeaderLine
  rw [splitOnChar_append '=' _ hpre, splitOnChar_not_mem (eq_not_mem_intRepr n)]
  exact pyInt_of_trim (pyTrim_intRepr n)

theorem splitOnChar_entryBody (e : Sigma (fun _ : Int × Int => Int)) :
    splitOnChar ',' (entryBody e) =
      [intRepr e.1.1, ' ' :: intRepr e.1.2, ' ' :: intRepr e.2] := by
  have hs2 : ',' ∉ ' ' :: intRepr e.1.2 := by
    intro hm
    rcases List.mem_cons.mp hm with he | he
    · cases he
    · exact comma_not_mem_intRepr _ he
  unfold entryBody
  rw [show intRepr e.1.1 ++ ',' :: ' ' :: intRepr e.1.2 ++ ',' :: ' ' :: intRepr e.2
      = intRepr e.1.1 ++ ',' :: ((' ' :: intRepr e.1.2) ++ ',' :: (' ' :: intRepr e.2))
      from by simp]
  rw [splitOnChar_append ',' _ (comma_not_mem_intRepr _)]
  rw [splitOnChar_append ',' _ hs2]
  rw [splitOnChar_not_mem (show ',' ∉ ' ' :: intRepr e.2 from by
    intro hm
    rcases List.mem_cons.mp hm with he | he
    · cases he
    · exact comma_not_mem_intRepr _ he)]

theorem entryBody_getLast (e : Sigma (fun _ : Int × Int => Int)) :
    ∃ d, (entryBody e).reverse.head? = some d ∧ d.isDigit = true := by
  obtain ⟨ds, d, hds, hd⟩ := intRepr_snoc e.2
  refine ⟨d, ?_, hd⟩
  rw [List.head?_reverse]
  unfold entryBody
  rw [hds]
  rw [show intRepr e.1.1 ++ ',' :: ' ' :: intRepr e.1.2 ++ ',' :: ' ' :: (ds ++ [d])
      = (intRepr e.1.1 ++ ',' :: ' ' :: intRepr e.1.2 ++ ',' :: ' ' :: ds) ++ [d]
      from by simp]
  exact List.getLast?_concat _

theorem entryBody_head (e : Sigma (fun _ : Int × Int => Int)) :
    ∃ c cs, entryBody e = c :: cs ∧ (c = '-' ∨ c.isDigit = true) := by
  obtain ⟨c, cs, hc, hcd⟩ := intRepr_head e.1.1
  refine ⟨c, cs ++ ',' :: ' ' :: intRepr e.1.2 ++ ',' :: ' ' :: intRepr e.2, ?_, hcd⟩
  unfold entryBody
  rw [hc]
  rfl

theorem pyStripParens_entryLine (e : Sigma (fun _ : Int × Int => Int)) :
    pyStripParens (entryLine e) = entryBody e := by
  obtain ⟨c, cs, hc, hcd⟩ := entryBody_head e
  obtain ⟨d, hdh, hdd⟩ := entryBody_getLast e
  have hpc : (fun ch => decide (ch ∈ parenStrip)) c = false := by
    rcases hcd with rfl | hcd
    · decide
    · exact isDigit_not_paren hcd
  have hpd : (fun ch => decide (ch ∈ parenStrip)) d = false := isDigit_not_paren hdd
  have hop : (fun ch => decide (ch ∈ parenStrip)) '(' = true := by decide
  have hcp : (fun ch => decide (ch ∈ parenStrip)) ')' = true := by decide
  unfold pyStripParens entryLine
  rw [List.cons_append, dropWhile_cons_of_pos hop]
  have h1 : (entryBody e ++ [')']).dropWhile (fun ch => decide (ch ∈ parenStrip)) =
      entryBody e ++ [')'] := by
    rw [hc, List.cons_append]
    rw [dropWhile_cons_of_neg hpc, ← List.cons_append, ← hc]
  rw [h1, List.reverse_append]
  simp only [List.reverse_singleton, List.singleton_append]
  rw [dropWhile_cons_of_pos hcp]
  have h2 : (entryBody e).reverse.dropWhile (fun ch => decide (ch ∈ parenStrip)) =
      (entryBody e).reverse := by
    cases hrv : (entryBody e).reverse with
    | nil => rfl
    | cons x xs =>
      have hx : x = d := by
        rw [hrv, List.head?_cons] at hdh
        exact Option.some.inj hdh
      rw [hx]
      exact dropWhile_cons_of_neg hpd
  rw [h2, List.reverse_reverse]

theorem parseEntryLine_entryLine (e : Sigma (fun _ : Int × Int => Int)) :
    parseEntryLine (entryLine e) = some (e.1.1, e.1.2, e.2) := by
  unfold parseEntryLine
  rw [pyStripParens_entryLine, splitOnChar_entryBody]
  show (match pyInt (intRepr e.1.1), pyInt (' ' :: intRepr e.1.2),
      pyInt (' ' :: intRepr e.2) with
    | some r, some co, some v => some (r, co, v)
    | _, _, _ => none) = some (e.1.1, e.1.2, e.2)
  rw [show pyInt (intRepr e.1.1) = some e.1.1 from pyInt_of_trim (pyTrim_intRepr _)]
  rw [show pyInt (' ' :: intRepr e.1.2) = some e.1.2 from
    pyInt_of_trim (pyTrim_sp_intRepr _)]
  rw [show pyInt (' ' :: intRepr e.2) = some e.2 from
    pyInt_of_trim (pyTrim_sp_intRepr _)]

theorem pyTrim_entryLine (e : Sigma (fun _ : Int × Int => Int)) :
    pyTrim (entryLine e) = entryLine e := by
  unfold pyTrim entryLine
  rw [List.cons_append]
  rw [dropWhile_cons_of_neg (show Char.isWhitespace '(' = false from by decide)]
  rw [show ('(' :: (entryBody e ++ [')'])).reverse =
      ')' :: ((entryBody e).reverse ++ ['(']) from by simp]
  rw [dropWhile_cons_of_neg (show Char.isWhitespace ')' = false from by decide)]
  simp

theorem parseEntriesLoop_map_entryLine (L : List (Sigma (fun _ : Int × Int => Int))) :
    ∀ acc : EMap, parseEntriesLoop (L.map entryLine) acc =
      .ok (L.foldl (fun d e => d.insert e.1 e.2) acc) := by
  induction L with
  | nil => intro acc; rfl
  | cons e t ih =>
    intro acc
    have hne : ¬(pyTrim (entryLine e) = []) := by
      rw [pyTrim_entryLine]
      unfold entryLine
      simp
    rw [List.map_cons, parseEntriesLoop, if_neg hne, parseEntryLine_entryLine]
    show parseEntriesLoop (t.map entryLine) (acc.insert (e.1.1, e.1.2) e.2) =
      Except.ok ((e :: t).foldl (fun d e => d.insert e.1 e.2) acc)
    exact ih _

theorem lookup_foldl_insert (L : List (Sigma (fun _ : Int × Int => Int))) :
    L.NodupKeys → ∀ (acc : EMap) (k : Int × Int),
      (L.foldl (fun d e => d.insert e.1 e.2) acc).lookup k =
        (L.dlookup k).or (acc.lookup k) := by
  induction L with
  | nil => intro _ acc k; simp
  | cons e t ih =>
    intro hL acc k
    obtain ⟨he, ht⟩ := List.nodupKeys_cons.mp hL
    rw [List.foldl_cons, ih ht]
    by_cases hk : k = e.1
    · subst hk
      rw [List.dlookup_eq_none.mpr he]
      rw [show List.dlookup e.1 (e :: t) = some e.2 from by
        cases e; exact List.dlookup_cons_eq _ _ _]
      rw [EMap.lookup_insert]
      simp
    · rw [List.dlookup_cons_ne _ _ hk, EMap.lookup_insert_ne _ _ hk]

theorem sortedEntries_perm (M : SparseMatrix) :
    List.Perm (sortedEntries M) M.elements.entries :=
  List.mergeSort_perm _ _

theorem sortedEntries_nodupKeys (M : SparseMatrix) : (sortedEntries M).NodupKeys := by
  rw [List.nodupKeys_iff_pairwise]
  rw [List.Perm.pairwise_iff (fun hab he => hab he.symm) (sortedEntries_perm M)]
  exact List.nodupKeys_iff_pairwise.mp (EMap.nodupKeys _)

theorem sortedEntries_dlookup (M : SparseMatrix) (k : Int × Int) :
    (sortedEntries M).dlookup k = M.elements.entries.dlookup k :=
  List.perm_dlookup k (sortedEntries_nodupKeys M) (EMap.nodupKeys _)
    (sortedEntries_perm M)

theorem entryLe_trans : ∀ a b c : Sigma (fun _ : Int × Int => Int),
    entryLe a b → entryLe b c → entryLe a c := by
  intro a b c hab hbc
  unfold entryLe at *
  split_ifs at * <;> simp_all <;> omega

theorem entryLe_total : ∀ a b : Sigma (fun _ : Int × Int => Int),
    entryLe a b || entryLe b a := by
  intro a b
  unfold entryLe
  split_ifs <;> simp_all <;> omega

theorem entryLe_key_lex {a b : Sigma (fun _ : Int × Int => Int)}
    (h : entryLe a b = true) :
    a.1.1 < b.1.1 ∨ (a.1.1 = b.1.1 ∧ a.1.2 ≤ b.1.2) := by
  unfold entryLe at h
  split_ifs at h with h1 h2
  · exact Or.inr ⟨h1, le_of_eq h2⟩
  · exact Or.inr ⟨h1, le_of_lt (by simpa using h)⟩
  · exact Or.inl (by simpa using h)

theorem parse_eval (l0 l1 : List Char) (rest : List (List Char)) (nr nc : Int)
    (E : EMap) (h0 : parseHeaderLine l0 = some nr) (h1 : parseHeaderLine l1 = some nc)
    (h2 : parseEntriesLoop rest ∅ = .ok E) :
    parse (l0 :: l1 :: rest) = .ok ⟨nr, nc, E⟩ := by
  show (match parseHeaderLine l0, parseHeaderLine l1 with
    | some nr, some nc =>
      (match parseEntriesLoop rest ∅ with
        | .ok acc => Except.ok (⟨nr, nc, acc⟩ : SparseMatrix)
        | .error e => Except.error e)
    | _, _ => Except.error MatError.formatError) = .ok ⟨nr, nc, E⟩
  rw [h0, h1, h2]

/-- C3: for a matrix satisfying I1, parsing its canonical serialization
succeeds and yields a matrix with the same dimensions and the same
`get_element` at every coordinate; the serialization lists the entries
sorted ascending by `(row, col)` lexicographically, after the `rows=` and
`cols=` header lines. -/
theorem claim_C3_roundtrip (M : SparseMatrix) (hI1 : I1 M) :
    (∃ M', parse (serialize M) = .ok M' ∧ M'.num_rows = M.num_rows ∧
      M'.num_cols = M.num_cols ∧
      ∀ r c : Int, M'.get_element r c = M.get_element r c) ∧
    ((sortedEntries M).map Sigma.fst).Pairwise
      (fun p q : Int × Int => p.1 < q.1 ∨ (p.1 = q.1 ∧ p.2 ≤ q.2)) ∧
    serialize M = (['r', 'o', 'w', 's', '='] ++ intRepr M.num_rows) ::
      (['c', 'o', 'l', 's', '='] ++ intRepr M.num_cols) ::
      ((sortedEntries M).map entryLine) := by
  refine ⟨?_, ?_, rfl⟩
  · refine ⟨⟨M.num_rows, M.num_cols,
      (sortedEntries M).foldl (fun d e => d.insert e.1 e.2) (∅ : EMap)⟩, ?_, rfl, rfl, ?_⟩
    · show parse ((['r', 'o', 'w', 's', '='] ++ intRepr M.num_rows) ::
        (['c', 'o', 'l', 's', '='] ++ intRepr M.num_cols) ::
        ((sortedEntries M).map entryLine)) = _
      rw [show ['r', 'o', 'w', 's', '='] ++ intRepr M.num_rows =
        ['r', 'o', 'w', 's'] ++ '=' :: intRepr M.num_rows from rfl]
      rw [show ['c', 'o', 'l', 's', '='] ++ intRepr M.num_cols =
        ['c', 'o', 'l', 's'] ++ '=' :: intRepr M.num_cols from rfl]
      exact parse_eval _ _ _ _ _ _
        (parseHeaderLine_label ['r', 'o', 'w', 's'] (by decide) M.num_rows)
        (parseHeaderLine_label ['c', 'o', 'l', 's'] (by decide) M.num_cols)
        (parseEntriesLoop_map_entryLine (sortedEntries M) ∅)
    · intro r c
      show (((sortedEntries M).foldl (fun d e => d.insert e.1 e.2) (∅ : EMap)).lookup
        (r, c)).getD 0 = _
      rw [lookup_foldl_insert (sortedEntries M) (sortedEntries_nodupKeys M) ∅ (r, c)]
      rw [sortedEntries_dlookup M (r, c), EMap.lookup_empty, Option.or_none]
      rfl
  · refine List.Pairwise.map Sigma.fst (fun a b h => entryLe_key_lex h) ?_
    exact List.sorted_mergeSort entryLe_trans entryLe_total _

theorem claim_C3_witness :
    I1 wA ∧
      ((∃ M', parse (serialize wA) = .ok M' ∧ M'.num_rows = wA.num_rows ∧
        M'.num_cols = wA.num_cols ∧
        ∀ r c : Int, M'.get_element r c = wA.get_element r c) ∧
      ((sortedEntries wA).map Sigma.fst).Pairwise
        (fun p q : Int × Int => p.1 < q.1 ∨ (p.1 = q.1 ∧ p.2 ≤ q.2)) ∧
      serialize wA = (['r', 'o', 'w', 's', '='] ++ intRepr wA.num_rows) ::
        (['c', 'o', 'l', 's', '='] ++ intRepr wA.num_cols) ::
        ((sortedEntries wA).map entryLine)) :=
  ⟨by decide, claim_C3_roundtrip wA (by decide)⟩

/-- A line the parser accepts as a header: `split('=')` has an index 1 whose
trimmed content is an integer (the label before `=` is irrelevant). -/
def headerOk (l : List Char) : Bool := (parseHeaderLine l).isSome

/-- A line the entry loop accepts: blank, or a well-formed three-integer entry. -/
def entryLineOk (l : List Char) : Bool :=
  decide (pyTrim l = []) || (parseEntryLine l).isSome

theorem parseEntriesLoop_ok_iff (ls : List (List Char)) :
    ∀ acc : EMap, (∃ E, parseEntriesLoop ls acc = .ok E) ↔
      ∀ l ∈ ls, entryLineOk l := by
  induction ls with
  | nil =>
    intro acc
    constructor
    · intro _ l hl
      cases hl
    · intro _
      exact ⟨acc, rfl⟩
  | cons l ls ih =>
    intro acc
    rw [parseEntriesLoop]
    by_cases hb : pyTrim l = []
    · rw [if_pos hb, ih acc]
      constructor
      · intro h l' hl'
        rcases List.mem_cons.mp hl' with rfl | hl'
        · simp [entryLineOk, hb]
        · exact h l' hl'
      · intro h l' hl'
        exact h l' (List.mem_cons_of_mem _ hl')
    · rw [if_neg hb]
      cases hp : parseEntryLine l with
      | none =>
        constructor
        · rintro ⟨E, hE⟩
          cases hE
        · intro h
          exact absurd (h l (List.mem_cons_self _ _)) (by simp [entryLineOk, hp, hb])
      | some t =>
        obtain ⟨r, c, v⟩ := t
        have hred : ∀ E : EMap,
            ((match (some (r, c, v) : Option (Int × Int × Int)) with
              | some (r, c, v) => parseEntriesLoop ls (acc.insert (r, c) v)
              | none => Except.error MatError.formatError) = .ok E) ↔
              parseEntriesLoop ls (acc.insert (r, c) v) = .ok E := by
          intro E
          exact Iff.rfl
        constructor
        · rintro ⟨E, hE⟩
          intro l' hl'
          rcases List.mem_cons.mp hl' with rfl | hl'
          · simp [entryLineOk, hp]
          · exact ((ih _).mp ⟨E, (hred E).mp hE⟩) l' hl'
        · intro h
          obtain ⟨E, hE⟩ := (ih (acc.insert (r, c) v)).mpr
            (fun l' hl' => h l' (List.mem_cons_of_mem _ hl'))
          exact ⟨E, (hred E).mpr hE⟩

theorem parseEntriesLoop_error_format (ls : List (List Char)) :
    ∀ (acc : EMap) (e : MatError), parseEntriesLoop ls acc = .error e →
      e = .formatError := by
  induction ls with
  | nil =>
    intro acc e he
    cases he
  | cons l ls ih =>
    intro acc e he
    rw [parseEntriesLoop] at he
    by_cases hb : pyTrim l = []
    · rw [if_pos hb] at he
      exact ih acc e he
    · rw [if_neg hb] at he
      cases hp : parseEntryLine l with
      | none =>
        rw [hp] at he
        exact (Except.error.inj he).symm
      | some t =>
        obtain ⟨r, c, v⟩ := t
        rw [hp] at he
        exact ih _ e he

theorem parse_ok_iff (lines : List (List Char)) :
    (∃ M, parse lines = .ok M) ↔
      ∃ l0 l1 rest, lines = l0 :: l1 :: rest ∧ headerOk l0 ∧ headerOk l1 ∧
        ∀ l ∈ rest, entryLineOk l := by
  cases lines with
  | nil =>
    constructor
    · rintro ⟨M, hM⟩
      cases hM
    · rintro ⟨l0, l1, rest, h, -⟩
      cases h
  | cons l0 rest0 =>
    cases rest0 with
    | nil =>
      constructor
      · rintro ⟨M, hM⟩
        cases hM
      · rintro ⟨l0', l1', rest', h, -⟩
        cases h
    | cons l1 rest =>
      have hred : ∀ x, parse (l0 :: l1 :: rest) = x ↔
          ((match parseHeaderLine l0, parseHeaderLine l1 with
            | some nr, some nc =>
              (match parseEntriesLoop rest ∅ with
                | .ok acc => Except.ok (⟨nr, nc, acc⟩ : SparseMatrix)
                | .error e => Except.error e)
            | _, _ => Except.error MatError.formatError) = x) :=
        fun _ => Iff.rfl
      constructor
      · rintro ⟨M, hM⟩
        rw [hred] at hM
        cases h0 : parseHeaderLine l0 with
        | none => rw [h0] at hM; cases hM
        | some nr =>
          cases h1 : parseHeaderLine l1 with
          | none => rw [h0, h1] at hM; cases hM
          | some nc =>
            rw [h0, h1] at hM
            cases h2 : parseEntriesLoop rest ∅ with
            | error e => rw [h2] at hM; cases hM
            | ok E =>
              refine ⟨l0, l1, rest, rfl, ?_, ?_, ?_⟩
              · simp [headerOk, h0]
              · simp [headerOk, h1]
              · exact (parseEntriesLoop_ok_iff rest ∅).mp ⟨E, h2⟩
      · rintro ⟨l0', l1', rest', heq, hh0, hh1, hrest⟩
        cases heq
        obtain ⟨nr, h0⟩ := Option.isSome_iff_exists.mp hh0
        obtain ⟨nc, h1⟩ := Option.isSome_iff_exists.mp hh1
        obtain ⟨E, h2⟩ := (parseEntriesLoop_ok_iff rest ∅).mpr hrest
        exact ⟨⟨nr, nc, E⟩, parse_eval l0 l1 rest nr nc E h0 h1 h2⟩

theorem parse_error_format (lines : List (List Char)) (e : MatError)
    (h : parse lines = .error e) : e = .formatError := by
  cases lines with
  | nil => exact (Except.error.inj h).symm
  | cons l0 rest0 =>
    cases rest0 with
    | nil => exact (Except.error.inj h).symm
    | cons l1 rest =>
      have hred : parse (l0 :: l1 :: rest) =
          (match parseHeaderLine l0, parseHeaderLine l1 with
            | some nr, some nc =>
              (match parseEntriesLoop rest ∅ with
                | .ok acc => Except.ok (⟨nr, nc, acc⟩ : SparseMatrix)
                | .error e => Except.error e)
            | _, _ => Except.error MatError.formatError) := rfl
      rw [hred] at h
      cases h0 : parseHeaderLine l0 with
      | none => rw [h0] at h; exact (Except.error.inj h).symm
      | some nr =>
        cases h1 : parseHeaderLine l1 with
        | none => rw [h0, h1] at h; exact (Except.error.inj h).symm
        | some nc =>
          rw [h0, h1] at h
          cases h2 : parseEntriesLoop rest ∅ with
          | ok E => rw [h2] at h; cases h
          | error e' =>
            rw [h2] at h
            rw [← Except.error.inj h]
            exact parseEntriesLoop_error_format rest ∅ e' h2

/-- C7 (amended): the parser fails — always with `formatError` — exactly
when the input is not of the shape: at least two lines, the first two each
containing `=` with an integer field after the first `=` (`headerOk`; the
label before `=` is not checked), and every further line blank or a
well-formed three-integer entry.  In particular the header `rows=two`, an
entry `(1,2)` with only two integers, a missing line, and a missing `=`
all fail with `formatError`. -/
theorem claim_C7_parse_failure (lines : List (List Char)) :
    (parse lines = .error .formatError ↔
      ¬ ∃ l0 l1 rest, lines = l0 :: l1 :: rest ∧ headerOk l0 ∧ headerOk l1 ∧
          ∀ l ∈ rest, entryLineOk l) ∧
    parse [['r', 'o', 'w', 's', '=', 't', 'w', 'o'],
           ['c', 'o', 'l', 's', '=', '2']] = .error .formatError ∧
    parse [['r', 'o', 'w', 's', '=', '2'], ['c', 'o', 'l', 's', '=', '2'],
           ['(', '1', ',', '2', ')']] = .error .formatError ∧
    parse [['r', 'o', 'w', 's', '=', '2']] = .error .formatError ∧
    parse [['r', 'o', 'w', 's', '3'], ['c', 'o', 'l', 's', '=', '2']] =
      .error .formatError := by
  refine ⟨?_, rfl, rfl, rfl, rfl⟩
  constructor
  · intro herr hex
    obtain ⟨M, hM⟩ := (parse_ok_iff lines).mpr hex
    rw [herr] at hM
    cases hM
  · intro hno
    cases hp : parse lines with
    | ok M => exact absurd ((parse_ok_iff lines).mp ⟨M, hp⟩) hno
    | error e => rw [← parse_error_format lines e hp]

/-- C7 fails as stated: the code never checks the `rows` label, so an input
whose first line is `cows=3` parses successfully even though that line does
not match `rows=<integer>` (it does not even start with `rows=`). -/
theorem claim_C7_counterexample :
    (parse [['c', 'o', 'w', 's', '=', '3'],
            ['c', 'o', 'l', 's', '=', '2']]).isOk = true ∧
    List.take 5 ['c', 'o', 'w', 's', '=', '3'] ≠ ['r', 'o', 'w', 's', '='] :=
  ⟨rfl, by decide⟩

/-- The write a single line of the entry loop performs at key `k`
(`some v` when the line is a well-formed entry for `k`, else no write). -/
def entryWriteStep (k : Int × Int) (cur : Option Int) (l : List Char) : Option Int :=
  match parseEntryLine l with
  | some (r, c, v) => if (r, c) = k then some v else cur
  | none => cur

/-- The value the entry loop leaves at key `k`: the value of the last line
writing `k`, if any (dict overwrite semantics: the last occurrence wins;
later lines take priority via `Option.or`). -/
def lastWrite : List (List Char) → Int × Int → Option Int
  | [], _ => none
  | l :: ls, k => (lastWrite ls k).or (entryWriteStep k none l)

theorem pyTrim_nil_all_ws (l : List Char) (h : pyTrim l = []) :
    ∀ c ∈ l, c.isWhitespace = true := by
  unfold pyTrim at h
  rw [List.reverse_eq_nil_iff, List.dropWhile_eq_nil_iff] at h
  have hdrop : ∀ c ∈ l.dropWhile Char.isWhitespace, c.isWhitespace = true := by
    intro c hc
    exact h c (List.mem_reverse.mpr hc)
  intro c hc
  rw [← List.takeWhile_append_dropWhile (p := Char.isWhitespace) (l := l),
      List.mem_append] at hc
  rcases hc with hc | hc
  · exact List.mem_takeWhile_imp hc
  · exact hdrop c hc

theorem parseEntryLine_blank (l : List Char) (h : pyTrim l = []) :
    parseEntryLine l = none := by
  have hws := pyTrim_nil_all_ws l h
  have hcomma : ',' ∉ pyStripParens l := by
    intro hm
    have hsub : ',' ∈ l := by
      unfold pyStripParens at hm
      rw [List.mem_reverse] at hm
      have hm2 := (List.dropWhile_sublist _).mem hm
      rw [List.mem_reverse] at hm2
      exact (List.dropWhile_sublist _).mem hm2
    exact absurd (hws ',' hsub) (by decide)
  unfold parseEntryLine
  rw [splitOnChar_not_mem hcomma]

theorem lastWrite_none_of (k : Int × Int) (post : List (List Char))
    (hpost : ∀ l' ∈ post, ∀ r' c' v' : Int,
      parseEntryLine l' = some (r', c', v') → (r', c') ≠ k) :
    lastWrite post k = none := by
  induction post with
  | nil => rfl
  | cons p ps ih =>
    rw [lastWrite, show entryWriteStep k none p = none from by
        unfold entryWriteStep
        cases hp : parseEntryLine p with
        | none => rfl
        | some t =>
          obtain ⟨r', c', v'⟩ := t
          show (if (r', c') = k then some v' else none) = none
          rw [if_neg (hpost p (List.mem_cons_self _ _) r' c' v' hp)]]
    rw [Option.or_none]
    exact ih (fun l' hl' => hpost l' (List.mem_cons_of_mem _ hl'))

theorem lastWrite_append (xs ys : List (List Char)) (k : Int × Int) :
    lastWrite (xs ++ ys) k = (lastWrite ys k).or (lastWrite xs k) := by
  induction xs with
  | nil => simp [lastWrite]
  | cons x xs ih =>
    rw [List.cons_append, lastWrite, ih, lastWrite, Option.or_assoc]

theorem parseEntriesLoop_lookup (ls : List (List Char)) :
    ∀ (acc E : EMap), parseEntriesLoop ls acc = .ok E → ∀ k : Int × Int,
      E.lookup k = (lastWrite ls k).or (acc.lookup k) := by
  induction ls with
  | nil =>
    intro acc E hE k
    obtain rfl : acc = E := Except.ok.inj hE
    simp [lastWrite]
  | cons l ls ih =>
    intro acc E hE k
    rw [parseEntriesLoop] at hE
    by_cases hb : pyTrim l = []
    · rw [if_pos hb] at hE
      rw [ih acc E hE k, show lastWrite (l :: ls) k = lastWrite ls k from by
        rw [lastWrite, show entryWriteStep k none l = none from by
          unfold entryWriteStep
          rw [parseEntryLine_blank l hb], Option.or_none]]
    · rw [if_neg hb] at hE
      cases hp : parseEntryLine l with
      | none =>
        rw [hp] at hE
        cases hE
      | some t =>
        obtain ⟨r, c, v⟩ := t
        rw [hp] at hE
        have hE' : parseEntriesLoop ls (acc.insert (r, c) v) = .ok E := hE
        rw [ih _ E hE' k, lastWrite, Option.or_assoc]
        congr 1
        rw [show entryWriteStep k none l = if (r, c) = k then some v else none from by
          unfold entryWriteStep
          rw [hp]]
        by_cases hk : (r, c) = k
        · rw [if_pos hk, hk, EMap.lookup_insert]
          simp
        · rw [if_neg hk, EMap.lookup_insert_ne _ _ (fun he => hk he.symm)]
          simp

/-- C8 (amended): when some entry line of the input is a well-formed entry
`(r, c, 0)` and no later entry line writes the same `(r, c)`, a successful
parse stores `(r, c) ↦ 0` verbatim in the element map — bypassing
`set_element`'s zero-pruning — so the parsed matrix violates I1 there. -/
theorem claim_C8_zero_stored (l0 l1 ℓ : List Char) (pre post : List (List Char))
    (r c : Int) (M : SparseMatrix)
    (hline : parseEntryLine ℓ = some (r, c, 0))
    (hpost : ∀ l' ∈ post, ∀ r' c' v' : Int,
      parseEntryLine l' = some (r', c', v') → (r', c') ≠ (r, c))
    (hM : parse (l0 :: l1 :: (pre ++ ℓ :: post)) = .ok M) :
    M.elements.lookup (r, c) = some 0 := by
  have hlast : lastWrite (pre ++ ℓ :: post) (r, c) = some 0 := by
    rw [lastWrite_append, lastWrite, lastWrite_none_of (r, c) post hpost,
      show entryWriteStep (r, c) none ℓ = some 0 from by
        unfold entryWriteStep
        rw [hline]
        show (if ((r, c) : Int × Int) = (r, c) then some (0 : Int) else none) = some 0
        rw [if_pos rfl]]
    rfl
  obtain ⟨nr, nc, E, h0, h1, h2, rfl⟩ :
      ∃ nr nc E, parseHeaderLine l0 = some nr ∧ parseHeaderLine l1 = some nc ∧
        parseEntriesLoop (pre ++ ℓ :: post) ∅ = .ok E ∧
        M = ⟨nr, nc, E⟩ := by
    have hred : parse (l0 :: l1 :: (pre ++ ℓ :: post)) =
        (match parseHeaderLine l0, parseHeaderLine l1 with
          | some nr, some nc =>
            (match parseEntriesLoop (pre ++ ℓ :: post) ∅ with
              | .ok acc => Except.ok (⟨nr, nc, acc⟩ : SparseMatrix)
              | .error e => Except.error e)
          | _, _ => Except.error MatError.formatError) := rfl
    rw [hred] at hM
    cases h0 : parseHeaderLine l0 with
    | none => rw [h0] at hM; cases hM
    | some nr =>
      cases h1 : parseHeaderLine l1 with
      | none => rw [h0, h1] at hM; cases hM
      | some nc =>
        rw [h0, h1] at hM
        cases h2 : parseEntriesLoop (pre ++ ℓ :: post) ∅ with
        | error e => rw [h2] at hM; cases hM
        | ok E =>
          rw [h2] at hM
          exact ⟨nr, nc, E, rfl, rfl, rfl, (Except.ok.inj hM).symm⟩
  rw [show (⟨nr, nc, E⟩ : SparseMatrix).elements = E from rfl]
  rw [parseEntriesLoop_lookup _ _ _ h2 (r, c), hlast]
  rfl

/-- C8 fails as stated: this input contains the well-formed zero entry line
`(1,2,0)`, yet the parsed matrix does not bind `(1, 2)` to 0 — a later
duplicate line overwrites it (last occurrence wins) — and satisfies I1. -/
theorem claim_C8_counterexample :
    parseEntryLine ['(', '1', ',', '2', ',', '0', ')'] = some (1, 2, 0) ∧
    ∃ M, parse [['r', 'o', 'w', 's', '=', '2'], ['c', 'o', 'l', 's', '=', '3'],
        ['(', '1', ',', '2', ',', '0', ')'], ['(', '1', ',', '2', ',', '5', ')']] =
        .ok M ∧
      M.elements.lookup (1, 2) = some 5 ∧ I1 M :=
  ⟨by decide, ⟨2, 3, EMap.ofList [((1, 2), 0), ((1, 2), 5)]⟩, rfl, by decide, by decide⟩

/-- Header line `rows=2` of the C8 witness input. -/
def wRowsLine : List Char := ['r', 'o', 'w', 's', '=', '2']

/-- Header line `cols=3` of the C8 witness input. -/
def wColsLine : List Char := ['c', 'o', 'l', 's', '=', '3']

/-- The zero entry line `(1,2,0)` of the C8 witness input. -/
def wZeroLine : List Char := ['(', '1', ',', '2', ',', '0', ')']

/-- The matrix parsed from the C8 witness input. -/
def wM8 : SparseMatrix := ⟨2, 3, EMap.ofList [((1, 2), 0)]⟩

theorem claim_C8_witness :
    parseEntryLine wZeroLine = some (1, 2, 0) ∧
      wM8.elements.lookup (1, 2) = some 0 :=
  ⟨by decide, claim_C8_zero_stored wRowsLine wColsLine wZeroLine [] [] 1 2 wM8
    (by decide) (by simp) rfl⟩

/-!
An imperative heap model for the frame property (C9).  Python dicts are
mutable objects on a heap; a `SparseMatrix` holds a reference to its dict.
Every statement of the three arithmetic methods either reads a dict or
writes the freshly allocated result dict (`result.elements[...] = ...`,
`del result.elements[...]`); the model makes those writes explicit so that
"the operands are never mutated" is a real statement rather than a
byproduct of a pure embedding.
-/

/-- The heap: dict number `r` is `dicts[r]`; fresh dicts are appended. -/
structure Heap where
  dicts : List EMap

/-- Read the dict a reference points to. -/
def Heap.read (h : Heap) (r : Nat) : EMap := (h.dicts.getD r ∅)

/-- Overwrite the dict a reference points to. -/
def Heap.write (h : Heap) (r : Nat) (d : EMap) : Heap := ⟨h.dicts.set r d⟩

/-- Allocate a fresh empty dict (`SparseMatrix(num_rows=..., num_cols=...)`
creates `self.elements = {}`), returning its reference. -/
def Heap.alloc (h : Heap) : Nat × Heap := (h.dicts.length, ⟨h.dicts ++ [∅]⟩)

/-- A Python `SparseMatrix` object: dimensions plus the reference to its
element dict. -/
structure MatRef where
  num_rows : Int
  num_cols : Int
  ref : Nat

/-- The copy loop `for (row, col), value in self.elements.items():
result.elements[(row, col)] = value`, writing into the dict at `r`. -/
def copyLoop (src r : Nat) (h : Heap) : Heap :=
  (h.read src).entries.foldl
    (fun hh e => hh.write r ((hh.read r).insert e.1 e.2)) h

/-- The `__add__` update loop over `other.elements.items()`, writing into
the dict at `r`. -/
def addLoop (other r : Nat) (h : Heap) : Heap :=
  (h.read other).entries.foldl
    (fun hh e => hh.write r (addStep (hh.read r) e)) h

/-- The `__sub__` update loop over `other.elements.items()`, writing into
the dict at `r`. -/
def subLoop (other r : Nat) (h : Heap) : Heap :=
  (h.read other).entries.foldl
    (fun hh e => hh.write r (subStep (hh.read r) e)) h

/-- The `__mul__` double loop, writing each non-zero `product_sum` into the
dict at `r`; the operands are only read (through the prebuilt indexes). -/
def mulLoop (SA SB : SparseMatrix) (r : Nat) (h : Heap) : Heap :=
  (selfRows SA).foldl
    (fun hh i => (otherCols SB).foldl
      (fun hh j => hh.write r (mulwrite SA SB (hh.read r) i j)) hh) h

/-- Imperative `__add__`: after the dimension check, allocate the result's
dict, copy `self.elements` into it entry by entry, then run the add/update
loop; every write targets the result's dict. -/
def addImp (A B : MatRef) (h : Heap) : Except MatError (MatRef × Heap) :=
  if A.num_rows ≠ B.num_rows ∨ A.num_cols ≠ B.num_cols then
    .error .dimensionMismatch
  else
    .ok (⟨A.num_rows, A.num_cols, (h.alloc).1⟩,
      addLoop B.ref (h.alloc).1 (copyLoop A.ref (h.alloc).1 (h.alloc).2))

/-- Imperative `__sub__`: same shape as `addImp` with the `set_element`
step. -/
def subImp (A B : MatRef) (h : Heap) : Except MatError (MatRef × Heap) :=
  if A.num_rows ≠ B.num_rows ∨ A.num_cols ≠ B.num_cols then
    .error .dimensionMismatch
  else
    .ok (⟨A.num_rows, A.num_cols, (h.alloc).1⟩,
      subLoop B.ref (h.alloc).1 (copyLoop A.ref (h.alloc).1 (h.alloc).2))

/-- Imperative `__mul__`: after the dimension check, allocate the result's
dict, build the (pure) row/column views of the operands, and run the double
loop. -/
def mulImp (A B : MatRef) (h : Heap) : Except MatError (MatRef × Heap) :=
  if A.num_cols ≠ B.num_rows then
    .error .dimensionMismatch
  else
    .ok (⟨A.num_rows, B.num_cols, (h.alloc).1⟩,
      mulLoop ⟨A.num_rows, A.num_cols, (h.alloc).2.read A.ref⟩
        ⟨B.num_rows, B.num_cols, (h.alloc).2.read B.ref⟩
        (h.alloc).1 (h.alloc).2)

theorem Heap.read_write_ne (h : Heap) (r s : Nat) (d : EMap) (hne : s ≠ r) :
    (h.write r d).read s = h.read s := by
  unfold Heap.read Heap.write
  rw [List.getD_eq_getElem?_getD, List.getD_eq_getElem?_getD,
    List.getElem?_set_ne (fun he => hne he.symm)]

theorem Heap.read_alloc (h : Heap) (s : Nat) (hs : s < h.dicts.length) :
    (h.alloc).2.read s = h.read s := by
  unfold Heap.read Heap.alloc
  rw [List.getD_eq_getElem?_getD, List.getD_eq_getElem?_getD,
    List.getElem?_append_left hs]

theorem read_foldl_write {α : Type} (r : Nat) (g : Heap → α → EMap) (L : List α) :
    ∀ (hh : Heap) (s : Nat), s ≠ r →
      (L.foldl (fun h2 x => h2.write r (g h2 x)) hh).read s = hh.read s := by
  induction L with
  | nil => intro hh s _; rfl
  | cons x t ih =>
    intro hh s hs
    rw [List.foldl_cons, ih _ s hs, Heap.read_write_ne _ _ _ _ hs]

theorem copyLoop_read_ne (src r : Nat) (h : Heap) (s : Nat) (hs : s ≠ r) :
    (copyLoop src r h).read s = h.read s :=
  read_foldl_write r
    (fun hh (e : Sigma (fun _ : Int × Int => Int)) => (hh.read r).insert e.1 e.2)
    ((h.read src).entries) h s hs

theorem addLoop_read_ne (other r : Nat) (h : Heap) (s : Nat) (hs : s ≠ r) :
    (addLoop other r h).read s = h.read s :=
  read_foldl_write r
    (fun hh (e : Sigma (fun _ : Int × Int => Int)) => addStep (hh.read r) e)
    ((h.read other).entries) h s hs

theorem subLoop_read_ne (other r : Nat) (h : Heap) (s : Nat) (hs : s ≠ r) :
    (subLoop other r h).read s = h.read s :=
  read_foldl_write r
    (fun hh (e : Sigma (fun _ : Int × Int => Int)) => subStep (hh.read r) e)
    ((h.read other).entries) h s hs

theorem mulLoop_read_ne (SA SB : SparseMatrix) (r : Nat) (h : Heap) (s : Nat)
    (hs : s ≠ r) : (mulLoop SA SB r h).read s = h.read s := by
  unfold mulLoop
  induction selfRows SA generalizing h with
  | nil => rfl
  | cons i t ih =>
    rw [List.foldl_cons, ih _]
    exact read_foldl_write r (fun hh (j : Int) => mulwrite SA SB (hh.read r) i j)
      (otherCols SB) h s hs

/-- C9: every successful `Add`/`Subtract`/`Multiply` call leaves the heap
cells of both operand dicts exactly as they were — the operands' dimensions
are fields of immutable references and their dicts are never written — and
the returned matrix is a newly constructed object whose dict reference is
distinct from both operands'. -/
theorem claim_C9_no_mutation (A B : MatRef) (h : Heap)
    (hA : A.ref < h.dicts.length) (hB : B.ref < h.dicts.length) :
    (∀ R h', addImp A B h = .ok (R, h') →
      h'.read A.ref = h.read A.ref ∧ h'.read B.ref = h.read B.ref ∧
      R.ref ≠ A.ref ∧ R.ref ≠ B.ref) ∧
    (∀ R h', subImp A B h = .ok (R, h') →
      h'.read A.ref = h.read A.ref ∧ h'.read B.ref = h.read B.ref ∧
      R.ref ≠ A.ref ∧ R.ref ≠ B.ref) ∧
    (∀ R h', mulImp A B h = .ok (R, h') →
      h'.read A.ref = h.read A.ref ∧ h'.read B.ref = h.read B.ref ∧
      R.ref ≠ A.ref ∧ R.ref ≠ B.ref) := by
  have hneA : A.ref ≠ (h.alloc).1 := Nat.ne_of_lt hA
  have hneB : B.ref ≠ (h.alloc).1 := Nat.ne_of_lt hB
  refine ⟨?_, ?_, ?_⟩
  · intro R h' hok
    unfold addImp at hok
    by_cases hd : A.num_rows ≠ B.num_rows ∨ A.num_cols ≠ B.num_cols
    · rw [if_pos hd] at hok
      cases hok
    · rw [if_neg hd] at hok
      cases Except.ok.inj hok
      refine ⟨?_, ?_, fun he => hneA he.symm, fun he => hneB he.symm⟩
      · rw [addLoop_read_ne _ _ _ _ hneA, copyLoop_read_ne _ _ _ _ hneA,
          Heap.read_alloc h _ hA]
      · rw [addLoop_read_ne _ _ _ _ hneB, copyLoop_read_ne _ _ _ _ hneB,
          Heap.read_alloc h _ hB]
  · intro R h' hok
    unfold subImp at hok
    by_cases hd : A.num_rows ≠ B.num_rows ∨ A.num_cols ≠ B.num_cols
    · rw [if_pos hd] at hok
      cases hok
    · rw [if_neg hd] at hok
      cases Except.ok.inj hok
      refine ⟨?_, ?_, fun he => hneA he.symm, fun he => hneB he.symm⟩
      · rw [subLoop_read_ne _ _ _ _ hneA, copyLoop_read_ne _ _ _ _ hneA,
          Heap.read_alloc h _ hA]
      · rw [subLoop_read_ne _ _ _ _ hneB, copyLoop_read_ne _ _ _ _ hneB,
          Heap.read_alloc h _ hB]
  · intro R h' hok
    unfold mulImp at hok
    by_cases hd : A.num_cols ≠ B.num_rows
    · rw [if_pos hd] at hok
      cases hok
    · rw [if_neg hd] at hok
      cases Except.ok.inj hok
      refine ⟨?_, ?_, fun he => hneA he.symm, fun he => hneB he.symm⟩
      · rw [mulLoop_read_ne _ _ _ _ _ hneA, Heap.read_alloc h _ hA]
      · rw [mulLoop_read_ne _ _ _ _ _ hneB, Heap.read_alloc h _ hB]

/-- The heap holding the dicts of the two scenario matrices. -/
def wHeap : Heap := ⟨[wA.elements, wB.elements]⟩

/-- A reference to `wA`'s dict in `wHeap`. -/
def wRefA : MatRef := ⟨2, 2, 0⟩

/-- A reference to `wB`'s dict in `wHeap`. -/
def wRefB : MatRef := ⟨2, 2, 1⟩

theorem claim_C9_witness :
    wRefA.ref < wHeap.dicts.length ∧ wRefB.ref < wHeap.dicts.length ∧
      ((∀ R h', addImp wRefA wRefB wHeap = .ok (R, h') →
        h'.read wRefA.ref = wHeap.read wRefA.ref ∧
        h'.read wRefB.ref = wHeap.read wRefB.ref ∧
        R.ref ≠ wRefA.ref ∧ R.ref ≠ wRefB.ref) ∧
      (∀ R h', subImp wRefA wRefB wHeap = .ok (R, h') →
        h'.read wRefA.ref = wHeap.read wRefA.ref ∧
        h'.read wRefB.ref = wHeap.read wRefB.ref ∧
        R.ref ≠ wRefA.ref ∧ R.ref ≠ wRefB.ref) ∧
      (∀ R h', mulImp wRefA wRefB wHeap = .ok (R, h') →
        h'.read wRefA.ref = wHeap.read wRefA.ref ∧
        h'.read wRefB.ref = wHeap.read wRefB.ref ∧
        R.ref ≠ wRefA.ref ∧ R.ref ≠ wRefB.ref)) :=
  ⟨by decide, by decide,
    claim_C9_no_mutation wRefA wRefB wHeap (by decide) (by decide)⟩
